import Mathlib

/-
Shallow embedding of src/extract_pdf.py (pdf-md-extractor).

Strings from the Python side are modelled as `List Char`.  Filesystem
paths are parsed, as pathlib does, into a root flag plus a list of name
components.  The filesystem itself is a tree; interactive functions
consume a script of input lines; `main` returns a pure outcome (exit
code, written output, whether the interactive menu was reached).
-/

namespace PdfMd

abbrev Str := List Char

/-- `'"'` (double quote). -/
def dqC : Char := Char.ofNat 34

/-- `'\x27'` (single quote). -/
def sqC : Char := Char.ofNat 39

def slashC : Char := Char.ofNat 47

def dotC : Char := Char.ofNat 46

def tildeC : Char := Char.ofNat 126

def underC : Char := Char.ofNat 95

def spaceC : Char := Char.ofNat 32

def strOf (s : String) : Str := s.toList

/-- Python `str.strip()` (whitespace only, as used with no argument). -/
def trimL (s : Str) : Str :=
  ((s.dropWhile Char.isWhitespace).reverse.dropWhile Char.isWhitespace).reverse

/-- Python `str.lower()` (ASCII case folding suffices for the inputs used). -/
def lowerL (s : Str) : Str := s.map Char.toLower

/-- pathlib `PurePosixPath`: a root flag plus the parsed name components. -/
structure PyPath where
  absolute : Bool
  parts : List Str
deriving DecidableEq

/-- Split a raw path string at every slash. -/
def splitSlash : Str → List Str
  | [] => [[]]
  | c :: cs =>
    match splitSlash cs with
    | [] => [[]]
    | h :: t => if c == slashC then [] :: h :: t else (c :: h) :: t

/-- pathlib component parsing: empty and `.` components are dropped. -/
def partsOf (s : Str) : List Str :=
  (splitSlash s).filter (fun p => !(p.isEmpty) && !(p == [dotC]))

def isAbs (s : Str) : Bool :=
  match s with
  | [] => false
  | c :: _ => c == slashC

/-- `Path(s)` — parse a raw string into a path. -/
def parsePath (s : Str) : PyPath := ⟨isAbs s, partsOf s⟩

/-- `Path.name`: the final component (empty for a bare root). -/
def pathName (p : PyPath) : Str := p.parts.getLastD []

/-- Index of the last dot of a name (`str.rfind`). -/
def lastDotIdx (nm : Str) : Option Nat :=
  match nm.reverse.findIdx? (fun c => c == dotC) with
  | none => none
  | some j => some (nm.length - 1 - j)

/-- `Path.suffix`: the extension, empty when the last dot is leading or trailing. -/
def nameSuffix (nm : Str) : Str :=
  match lastDotIdx nm with
  | none => []
  | some i => if 0 < i && i + 1 < nm.length then nm.drop i else []

def pathSuffix (p : PyPath) : Str := nameSuffix (pathName p)

/-- `p.suffix.lower()` as used by the validity checks. -/
def suffixLower (p : PyPath) : Str := lowerL (pathSuffix p)

def pdfExt : Str := strOf ".pdf"

def mdExt : Str := strOf ".md"

/-- `Path.with_suffix`: `none` models the `ValueError` raises of pathlib. -/
def withSuffix (p : PyPath) (suffix : Str) : Option PyPath :=
  if suffix.contains slashC then none
  else if (!suffix.isEmpty && !([dotC].isPrefixOf suffix)) || suffix == [dotC] then none
  else
    match p.parts.getLast? with
    | none => none
    | some nm =>
      let old := pathSuffix p
      let nm2 := if old.isEmpty then nm ++ suffix
                 else nm.take (nm.length - old.length) ++ suffix
      some ⟨p.absolute, p.parts.dropLast ++ [nm2]⟩

/-- Quote stripping from `get_manual_path` lines 115-118 (also used for the
search-directory input of menu option 3): one layer of matching surrounding
double or single quotes, exactly as the two `if`/`elif` slices `[1:-1]`. -/
def stripQuotes (s : Str) : Str :=
  if [dqC].isPrefixOf s && [dqC].isSuffixOf s then (s.drop 1).dropLast
  else if [sqC].isPrefixOf s && [sqC].isSuffixOf s then (s.drop 1).dropLast
  else s

def fileScheme : Str := strOf "file://"

/-- `file://` prefix stripping from `get_manual_path` lines 121-122. -/
def stripFileScheme (s : Str) : Str :=
  if fileScheme.isPrefixOf s then s.drop 7 else s

/-- `str.rstrip('/')`. -/
def rstripSlash (s : Str) : Str :=
  (s.reverse.dropWhile (fun c => c == slashC)).reverse

/-- `str.find('/', 1)` on the tail of the string (index into the tail). -/
def findSlashIdx : Str → Option Nat
  | [] => none
  | c :: cs => if c == slashC then some 0 else (findSlashIdx cs).map (· + 1)

/-- `os.path.expanduser` (posixpath), with `HOME` set to `home` and other
users' home directories looked up through `pw` (`none` = unknown user,
returning the path unchanged as posixpath does on `KeyError`). -/
def expanduser (home : Str) (pw : Str → Option Str) (path : Str) : Str :=
  if !([tildeC].isPrefixOf path) then path
  else
    let i := match findSlashIdx (path.drop 1) with
             | some j => j + 1
             | none => path.length
    let uh? := if i == 1 then some home else pw ((path.drop 1).take (i - 1))
    match uh? with
    | none => path
    | some uh =>
      let uh2 := rstripSlash uh
      let r := uh2 ++ path.drop i
      if r.isEmpty then [slashC] else r

/-- The sanitization pipeline applied by `get_manual_path` to an entered
path (lines 114-125): surrounding quotes, then `file://`, then `~`. -/
def sanitizePath (home : Str) (pw : Str → Option Str) (s : Str) : Str :=
  expanduser home pw (stripFileScheme (stripQuotes s))

/-- A filesystem subtree.  A directory carries whether scanning it is
permitted; an unreadable directory raises `PermissionError` when scanned,
which the walk (pathlib's recursive glob) swallows, skipping the subtree. -/
inductive FSTree where
  | file (name : Str)
  | dir (name : Str) (readable : Bool) (children : List FSTree)

/-- `fnmatch` of the glob pattern `"*.pdf"`: case-sensitive suffix match. -/
def pdfMatch (n : Str) : Bool := pdfExt.isSuffixOf n

def extendPath (p : PyPath) (n : Str) : PyPath := ⟨p.absolute, p.parts ++ [n]⟩

mutual

/-- Entries yielded for one directory entry during `rglob("*.pdf")`: the
entry itself when its name matches, then (for a readable directory) the
matches below it.  Traversal order is OS-dependent in the source; the model
fixes one admissible order.  Each yielded pair carries `is_file`. -/
def walkEntry (pref : PyPath) : FSTree → List (PyPath × Bool)
  | .file n => if pdfMatch n then [(extendPath pref n, true)] else []
  | .dir n r cs =>
    (if pdfMatch n then [(extendPath pref n, false)] else [])
      ++ (if r then walkChildren (extendPath pref n) cs else [])

def walkChildren (pref : PyPath) : List FSTree → List (PyPath × Bool)
  | [] => []
  | t :: ts => walkEntry pref t ++ walkChildren pref ts

end

/-- `search_dir.rglob("*.pdf")` from the search root (the root itself is
never a match of `**/*.pdf`). -/
def rglobPdf (root : PyPath) : FSTree → List (PyPath × Bool)
  | .file _ => []
  | .dir _ r cs => if r then walkChildren root cs else []

/-- The collection loop of `find_pdf_files` lines 25-29: keep regular
files, stop as soon as 20 are collected. -/
def collectLoop : List (PyPath × Bool) → List PyPath → List PyPath
  | [], acc => acc
  | (p, isf) :: rest, acc =>
    if isf then
      let acc2 := acc ++ [p]
      if 20 ≤ acc2.length then acc2 else collectLoop rest acc2
    else collectLoop rest acc

/-- `find_pdf_files`: the candidate list for a search root.  The
`except PermissionError: pass` wrapper of the source is modelled inside the
walk, which swallows permission errors subtree by subtree. -/
def find_pdf_files (root : PyPath) (t : FSTree) : List PyPath :=
  collectLoop (rglobPdf root t) []

/-- Join parsed parts back with slashes. -/
def joinParts (ps : List Str) : Str := (ps.intersperse [slashC]).flatten

/-- `str(path)` for a `PurePosixPath`. -/
def strOfPath (p : PyPath) : Str :=
  if p.absolute then [slashC] ++ joinParts p.parts
  else if p.parts.isEmpty then [dotC]
  else joinParts p.parts

/-- The display form of one candidate (`select_from_list` lines 43-48):
relative to the home directory with a `~/` prefix when `relative_to`
succeeds, the absolute form otherwise. -/
def displayPath (home : PyPath) (p : PyPath) : Str :=
  if home.absolute == p.absolute && home.parts.isPrefixOf p.parts then
    let rel := p.parts.drop home.parts.length
    strOf "~/" ++ (if rel.isEmpty then [dotC] else joinParts rel)
  else strOfPath p

def natDigits (n : Nat) : Str := Nat.toDigits 10 n

/-- Python `f"{i:2d}"`: right-aligned in a field of width 2. -/
def fmt2 (n : Nat) : Str :=
  let s := natDigits n
  List.replicate (2 - s.length) spaceC ++ s

/-- The numbered picklist lines (`enumerate(pdf_files, 1)`). -/
def numberLines (home : PyPath) : Nat → List PyPath → List Str
  | _, [] => []
  | i, f :: fs => (fmt2 i ++ strOf ". " ++ displayPath home f) :: numberLines home (i + 1) fs

def foundHeader : Str := strOf "Found PDF files:"

def truncNotice : Str := strOf "    ... (showing first 20 results)"

/-- The lines printed by `select_from_list` (lines 41-53) before its input
loop, for a non-empty candidate list. -/
def selectDisplay (home : PyPath) (files : List PyPath) : List Str :=
  foundHeader :: (numberLines home 1 files
    ++ (if 20 ≤ files.length then [truncNotice] else []))

/-- Result of a function that blocks on user input: `pending` means the
input script ran out while the function was still waiting for a line. -/
inductive Res (α : Type) where
  | pending
  | done (a : α)
deriving DecidableEq

/-- Digits of a Python `int()` literal after the first: underscores only
singly and only between digits. -/
def digitsTail : Str → Bool
  | [] => true
  | u :: rest =>
    if u == underC then
      match rest with
      | [] => false
      | d :: r2 => d.isDigit && digitsTail r2
    else u.isDigit && digitsTail rest

def validDigits : Str → Bool
  | [] => false
  | c :: rest => c.isDigit && digitsTail rest

def digitsValue (s : Str) : Nat :=
  s.foldl (fun a c => 10 * a + (c.toNat - 48)) 0

def parseDigits (s : Str) : Option Nat :=
  if validDigits s then some (digitsValue (s.filter Char.isDigit)) else none

/-- Python `int(str)` on an already stripped string (ASCII digits, optional
sign, underscores between digits); `none` models `ValueError`. -/
def parsePyInt (s : Str) : Option Int :=
  match s with
  | [] => none
  | c :: rest =>
    if c == Char.ofNat 43 then (parseDigits rest).map (fun n => (n : Int))
    else if c == Char.ofNat 45 then (parseDigits rest).map (fun n => -(n : Int))
    else (parseDigits s).map (fun n => (n : Int))

def rangeMsg (n : Nat) : Str :=
  strOf "Please enter a number between 1 and " ++ natDigits n

def numericMsg : Str :=
  strOf "Please enter a valid number or " ++ [sqC] ++ [Char.ofNat 113] ++ [sqC]
    ++ strOf " to quit"

/-- The input loop of `select_from_list` (lines 55-67).  Returns the
selection result, the unconsumed script, and the corrective messages
printed along the way. -/
def selectLoop (files : List PyPath) :
    List Str → Res (Option PyPath) × List Str × List Str
  | [] => (.pending, [], [])
  | s :: rest =>
    let c := trimL s
    if lowerL c == [Char.ofNat 113] then (.done none, rest, [])
    else
      match parsePyInt c with
      | none =>
        let r := selectLoop files rest
        (r.1, r.2.1, numericMsg :: r.2.2)
      | some v =>
        let idx := v - 1
        if h : 0 ≤ idx ∧ idx < (files.length : Int) then
          (.done (some (files.get ⟨idx.toNat, by omega⟩)), rest, [])
        else
          let r := selectLoop files rest
          (r.1, r.2.1, rangeMsg files.length :: r.2.2)

/-- `select_from_list`: `None` at once on an empty list, otherwise the
input loop (the displayed lines are modelled by `selectDisplay`). -/
def select_from_list (files : List PyPath) (script : List Str) :
    Res (Option PyPath) × List Str :=
  if files.isEmpty then (.done none, script)
  else
    let r := selectLoop files script
    (r.1, r.2.1)

/-- `get_manual_path` (lines 108-144): each iteration reads a line,
sanitizes it, and checks existence then suffix; a nonexistent path asks
the retry question (consuming one more line), a wrong suffix reprompts
directly. -/
def get_manual_path (ex : PyPath → Bool) (home : Str) (pw : Str → Option Str) :
    List Str → Res (Option PyPath) × List Str
  | [] => (.pending, [])
  | s :: rest =>
    let p := parsePath (sanitizePath home pw (trimL s))
    if !(ex p) then
      match rest with
      | [] => (.pending, [])
      | r :: rest2 =>
        if lowerL (trimL r) == [Char.ofNat 121] then get_manual_path ex home pw rest2
        else (.done none, rest2)
    else if !(suffixLower p == pdfExt) then get_manual_path ex home pw rest
    else (.done (some p), rest)

/-- The ambient state `main` runs against: file existence, the extraction
collaborator (`pymupdf4llm.to_markdown`, raising = `.error`), write
success, `HOME`, the user database, and the filesystem trees used by the
two search options. -/
structure World where
  ex : PyPath → Bool
  extract : PyPath → Except Str Str
  saveOk : PyPath → Bool
  home : Str
  pw : Str → Option Str
  homeTree : FSTree
  treeAt : Str → FSTree

/-- `get_pdf_path` (lines 70-105): the top-level interactive menu. -/
def get_pdf_path (w : World) : List Str → Res (Option PyPath) × List Str
  | [] => (.pending, [])
  | c :: rest =>
    let ch := trimL c
    if ch == [Char.ofNat 49] then get_manual_path w.ex w.home w.pw rest
    else if ch == [Char.ofNat 50] then
      let files := find_pdf_files (parsePath w.home) w.homeTree
      if files.isEmpty then get_pdf_path w rest
      else select_from_list files rest
    else if ch == [Char.ofNat 51] then
      match rest with
      | [] => (.pending, [])
      | d :: rest2 =>
        let sd := stripQuotes (trimL d)
        if !(w.ex (parsePath sd)) then get_pdf_path w rest2
        else
          let files := find_pdf_files (parsePath sd) (w.treeAt sd)
          if files.isEmpty then get_pdf_path w rest2
          else select_from_list files rest2
    else get_pdf_path w rest

/-- `extract_pdf_to_markdown` (lines 147-155): any exception from the
library is caught and turned into `None`. -/
def extract_pdf_to_markdown (w : World) (p : PyPath) : Option Str :=
  match w.extract p with
  | .ok md => some md
  | .error _ => none

/-- `save_markdown` (lines 158-170): the output path is the input with its
suffix replaced by `.md`; a write failure yields `None`.  The result pair
is the written file (path, content). -/
def save_markdown (w : World) (md : Str) (p : PyPath) : Option (PyPath × Str) :=
  match withSuffix p mdExt with
  | none => none
  | some outp => if w.saveOk outp then some (outp, md) else none

/-- What one run observably does. -/
structure Outcome where
  exitCode : Nat
  output : Option (PyPath × Str)
  prompted : Bool
deriving DecidableEq

/-- Lines 199-210 of `main`: extraction then save, with their two exit-1
short circuits. -/
def runPipeline (w : World) (prompted : Bool) (p : PyPath) : Outcome :=
  match extract_pdf_to_markdown w p with
  | none => ⟨1, none, prompted⟩
  | some md =>
    match save_markdown w md p with
    | none => ⟨1, none, prompted⟩
    | some out => ⟨0, some out, prompted⟩

/-- `main` (lines 173-210).  A non-empty command-line argument is checked
for existence and suffix (exit 1 on failure, interactive mode never
reached); otherwise the interactive resolver runs over the input script,
and cancelling exits 0 with no output. -/
def main (w : World) (arg : Option Str) (script : List Str) : Res Outcome :=
  let argEff : Option Str :=
    match arg with
    | some [] => none
    | x => x
  match argEff with
  | some a =>
    let p := parsePath a
    if !(w.ex p) then .done ⟨1, none, false⟩
    else if !(suffixLower p == pdfExt) then .done ⟨1, none, false⟩
    else .done (runPipeline w false p)
  | none =>
    match get_pdf_path w script with
    | (.pending, _) => .pending
    | (.done none, _) => .done ⟨0, none, true⟩
    | (.done (some p), _) => .done (runPipeline w true p)

/-- A concrete world used by witness theorems: exactly `/home/u/doc.pdf`
exists, and extraction always raises. -/
def Wtest : World where
  ex := fun p => p == parsePath (strOf "/home/u/doc.pdf")
  extract := fun _ => Except.error (strOf "cannot open document")
  saveOk := fun _ => true
  home := strOf "/home/u"
  pw := fun _ => none
  homeTree := FSTree.dir (strOf "u") true [FSTree.file (strOf "doc.pdf")]
  treeAt := fun _ => FSTree.dir [] true []

/-! Helper lemmas shared by the claim theorems. -/

theorem collectLoop_length (s : List (PyPath × Bool)) :
    ∀ acc : List PyPath, acc.length < 20 → (collectLoop s acc).length ≤ 20 := by
  induction s with
  | nil => intro acc h; simpa [collectLoop] using Nat.le_of_lt h
  | cons hd tl ih =>
    intro acc h
    obtain ⟨p, isf⟩ := hd
    cases isf with
    | false => simpa [collectLoop] using ih acc h
    | true =>
      simp only [collectLoop, if_true]
      split
      · simp only [List.length_append, List.length_singleton]
        omega
      · next h20 =>
        refine ih _ ?_
        simp only [List.length_append, List.length_singleton] at h20 ⊢
        omega

theorem collectLoop_mem (s : List (PyPath × Bool)) :
    ∀ (acc : List PyPath) (x : PyPath),
      x ∈ collectLoop s acc → x ∈ acc ∨ (x, true) ∈ s := by
  induction s with
  | nil => intro acc x h; exact Or.inl (by simpa [collectLoop] using h)
  | cons hd tl ih =>
    intro acc x h
    obtain ⟨p, isf⟩ := hd
    cases isf with
    | false =>
      rcases ih acc x (by simpa [collectLoop] using h) with h1 | h1
      · exact Or.inl h1
      · exact Or.inr (List.mem_cons_of_mem _ h1)
    | true =>
      simp only [collectLoop, if_true] at h
      split at h
      · rcases List.mem_append.mp h with h1 | h1
        · exact Or.inl h1
        · simp only [List.mem_singleton] at h1
          subst h1
          exact Or.inr (List.mem_cons_self _ _)
      · rcases ih _ x h with h1 | h1
        · rcases List.mem_append.mp h1 with h2 | h2
          · exact Or.inl h2
          · simp only [List.mem_singleton] at h2
            subst h2
            exact Or.inr (List.mem_cons_self _ _)
        · exact Or.inr (List.mem_cons_of_mem _ h1)

theorem walkChildren_append (pref : PyPath) (ts1 ts2 : List FSTree) :
    walkChildren pref (ts1 ++ ts2)
      = walkChildren pref ts1 ++ walkChildren pref ts2 := by
  induction ts1 with
  | nil => simp [walkChildren]
  | cons t ts ih => simp [walkChildren, ih]

theorem walkEntry_unreadable (pref : PyPath) (n : Str) (cs : List FSTree) :
    walkEntry pref (.dir n false cs) = walkEntry pref (.dir n false []) := by
  simp [walkEntry]

theorem walkChildren_mem (pref : PyPath) (ts : List FSTree) (pr : PyPath × Bool) :
    pr ∈ walkChildren pref ts ↔ ∃ t ∈ ts, pr ∈ walkEntry pref t := by
  induction ts with
  | nil => simp [walkChildren]
  | cons t ts ih => simp [walkChildren, ih]

theorem pathName_extendPath (pref : PyPath) (n : Str) :
    pathName (extendPath pref n) = n := by
  simp [pathName, extendPath]

theorem walkEntry_suffix :
    ∀ (k : Nat) (pref : PyPath) (t : FSTree), sizeOf t ≤ k →
      ∀ pr ∈ walkEntry pref t, pdfMatch (pathName pr.1) = true := by
  intro k
  induction k with
  | zero =>
    intro pref t ht
    cases t <;> simp at ht
  | succ k ih =>
    intro pref t ht pr hpr
    cases t with
    | file n =>
      simp only [walkEntry] at hpr
      split at hpr
      · next hm =>
        simp only [List.mem_singleton] at hpr
        subst hpr
        simpa [pathName_extendPath] using hm
      · simp at hpr
    | dir n r cs =>
      simp only [walkEntry] at hpr
      rcases List.mem_append.mp hpr with h1 | h1
      · split at h1
        · next hm =>
          simp only [List.mem_singleton] at h1
          subst h1
          simpa [pathName_extendPath] using hm
        · simp at h1
      · split at h1
        · rcases (walkChildren_mem _ _ _).mp h1 with ⟨c, hc, hcw⟩
          have hsz : sizeOf c < sizeOf (FSTree.dir n r cs) := by
            have := List.sizeOf_lt_of_mem hc
            simp only [FSTree.dir.sizeOf_spec]
            omega
          exact ih (extendPath pref n) c (by omega) pr hcw
        · simp at h1

theorem rglobPdf_suffix (root : PyPath) (t : FSTree) (pr : PyPath × Bool)
    (h : pr ∈ rglobPdf root t) : pdfMatch (pathName pr.1) = true := by
  cases t with
  | file n => simp [rglobPdf] at h
  | dir n r cs =>
    simp only [rglobPdf] at h
    split at h
    · rcases (walkChildren_mem _ _ _).mp h with ⟨c, hc, hcw⟩
      exact walkEntry_suffix (sizeOf c) root c le_rfl _ hcw
    · simp at h

theorem main_arg_cons (w : World) (c : Char) (cs : Str) (script : List Str) :
    main w (some (c :: cs)) script =
      (if !(w.ex (parsePath (c :: cs))) then .done ⟨1, none, false⟩
       else if !(suffixLower (parsePath (c :: cs)) == pdfExt) then .done ⟨1, none, false⟩
       else .done (runPipeline w false (parsePath (c :: cs)))) := rfl

theorem main_arg_reject (w : World) (a : Str) (script : List Str) (hne : a ≠ [])
    (hbad : w.ex (parsePath a) = false ∨ suffixLower (parsePath a) ≠ pdfExt) :
    main w (some a) script = .done ⟨1, none, false⟩ := by
  obtain ⟨c, cs, rfl⟩ : ∃ c cs, a = c :: cs := by
    cases a with
    | nil => exact absurd rfl hne
    | cons c cs => exact ⟨c, cs, rfl⟩
  rw [main_arg_cons]
  rcases hbad with hb | hb
  · simp [hb]
  · by_cases hex : w.ex (parsePath (c :: cs))
    · have hb' : (suffixLower (parsePath (c :: cs)) == pdfExt) = false :=
        beq_eq_false_iff_ne.mpr hb
      simp [hex, hb']
    · simp [hex]

theorem main_arg_accept (w : World) (a : Str) (script : List Str) (hne : a ≠ [])
    (hex : w.ex (parsePath a) = true) (hsuf : suffixLower (parsePath a) = pdfExt) :
    main w (some a) script = .done (runPipeline w false (parsePath a)) := by
  obtain ⟨c, cs, rfl⟩ : ∃ c cs, a = c :: cs := by
    cases a with
    | nil => exact absurd rfl hne
    | cons c cs => exact ⟨c, cs, rfl⟩
  rw [main_arg_cons]
  simp [hex, hsuf]

theorem stripQuotes_layer (q : Char) (hq : q = dqC ∨ q = sqC) (t : Str) :
    stripQuotes ([q] ++ t ++ [q]) = t := by
  have hp : [q].isPrefixOf ([q] ++ t ++ [q]) = true :=
    List.isPrefixOf_iff_prefix.mpr (by rw [List.append_assoc]; exact List.prefix_append _ _)
  have hs : [q].isSuffixOf ([q] ++ t ++ [q]) = true :=
    List.isSuffixOf_iff_suffix.mpr (List.suffix_append _ _)
  rcases hq with rfl | rfl
  · simp only [stripQuotes, hp, hs, Bool.and_self, if_true]
    simp [List.dropLast_concat]
  · have hd : ([sqC].isPrefixOf ([sqC] ++ t ++ [sqC])
        && [sqC].isSuffixOf ([sqC] ++ t ++ [sqC])) = true := by
      rw [hp, hs]; rfl
    have hdq : ¬ (([dqC].isPrefixOf ([sqC] ++ t ++ [sqC])
        && [dqC].isSuffixOf ([sqC] ++ t ++ [sqC])) = true) := by
      intro hcon
      rw [Bool.and_eq_true] at hcon
      rcases List.isPrefixOf_iff_prefix.mp hcon.1 with ⟨u, hu⟩
      have h0 := congrArg (fun l => l.head?) hu
      simp at h0
      exact absurd h0 (by decide)
    simp only [stripQuotes]
    rw [if_neg hdq, if_pos hd]
    simp [List.dropLast_concat]

theorem expanduser_tilde_slash (home : Str) (pw : Str → Option Str) (t : Str) :
    expanduser home pw ([tildeC, slashC] ++ t) = rstripSlash home ++ [slashC] ++ t := by
  simp [expanduser, findSlashIdx, List.isPrefixOf]

theorem nameSuffix_eq_some (nm : Str) (i : Nat) (hidx : lastDotIdx nm = some i) :
    nameSuffix nm
      = if (decide (0 < i) && decide (i + 1 < nm.length)) = true then nm.drop i else [] := by
  unfold nameSuffix
  rw [hidx]

theorem nameSuffix_eq_none (nm : Str) (hidx : lastDotIdx nm = none) :
    nameSuffix nm = [] := by
  unfold nameSuffix
  rw [hidx]

theorem numberLines_getElem (home : PyPath) :
    ∀ (files : List PyPath) (start i : Nat),
      (numberLines home start files)[i]?
        = (files[i]?).map (fun f => fmt2 (start + i) ++ strOf ". " ++ displayPath home f) := by
  intro files
  induction files with
  | nil => intro start i; simp [numberLines]
  | cons f fs ih =>
    intro start i
    cases i with
    | zero => simp [numberLines]
    | succ j =>
      simp only [numberLines, List.getElem?_cons_succ, ih (start + 1) j]
      have hst : start + 1 + j = start + (j + 1) := by omega
      rw [hst]

theorem selectLoop_quit (files : List PyPath) (s : Str) (rest : List Str)
    (hq : lowerL (trimL s) = [Char.ofNat 113]) :
    selectLoop files (s :: rest) = (.done none, rest, []) := by
  simp [selectLoop, hq]

theorem selectLoop_inrange (files : List PyPath) (s : Str) (rest : List Str)
    (k : Nat) (h1 : 1 ≤ k) (h2 : k ≤ files.length)
    (hq : lowerL (trimL s) ≠ [Char.ofNat 113])
    (hp : parsePyInt (trimL s) = some (k : Int)) :
    selectLoop files (s :: rest)
      = (.done (some (files.get ⟨k - 1, by omega⟩)), rest, []) := by
  have hq' : (lowerL (trimL s) == [Char.ofNat 113]) = false := beq_eq_false_iff_ne.mpr hq
  simp only [selectLoop, hq', Bool.false_eq_true, if_false, hp]
  rw [dif_pos (by constructor <;> omega)]
  have hfin : (⟨((k : Int) - 1).toNat, by omega⟩ : Fin files.length) = ⟨k - 1, by omega⟩ :=
    Fin.mk_eq_mk.mpr (by omega)
  rw [hfin]

theorem selectLoop_nonnum (files : List PyPath) (s : Str) (rest : List Str)
    (hq : lowerL (trimL s) ≠ [Char.ofNat 113])
    (hp : parsePyInt (trimL s) = none) :
    selectLoop files (s :: rest)
      = ((selectLoop files rest).1, (selectLoop files rest).2.1,
         numericMsg :: (selectLoop files rest).2.2) := by
  have hq' : (lowerL (trimL s) == [Char.ofNat 113]) = false := beq_eq_false_iff_ne.mpr hq
  simp only [selectLoop, hq', Bool.false_eq_true, if_false, hp]

theorem selectLoop_outrange (files : List PyPath) (s : Str) (rest : List Str)
    (v : Int) (hq : lowerL (trimL s) ≠ [Char.ofNat 113])
    (hp : parsePyInt (trimL s) = some v)
    (hr : v < 1 ∨ (files.length : Int) < v) :
    selectLoop files (s :: rest)
      = ((selectLoop files rest).1, (selectLoop files rest).2.1,
         rangeMsg files.length :: (selectLoop files rest).2.2) := by
  have hq' : (lowerL (trimL s) == [Char.ofNat 113]) = false := beq_eq_false_iff_ne.mpr hq
  simp only [selectLoop, hq', Bool.false_eq_true, if_false, hp]
  rw [dif_neg (by rintro ⟨ha, hb⟩; omega)]

/-! Claim theorems. -/

/-- C1: the candidate list of `find_pdf_files` never holds more than 20
entries, and whenever the cap of 20 is reached the picklist display
includes the truncation notice (so in particular whenever more matching
files exist beyond the cap). -/
theorem C1_cap_and_truncation_notice :
    (∀ (root : PyPath) (t : FSTree), (find_pdf_files root t).length ≤ 20)
    ∧ (∀ (home : PyPath) (files : List PyPath),
        20 ≤ files.length → truncNotice ∈ selectDisplay home files) := by
  constructor
  · intro root t
    exact collectLoop_length _ _ (by simp)
  · intro home files h
    simp [selectDisplay, h]

/-- C1 witness: a 20-entry candidate list makes the display include the
truncation notice. -/
theorem C1_cap_and_truncation_notice_witness :
    truncNotice ∈ selectDisplay (parsePath (strOf "/h"))
      (List.replicate 20 (parsePath (strOf "/h/a.pdf"))) :=
  C1_cap_and_truncation_notice.2 (parsePath (strOf "/h"))
    (List.replicate 20 (parsePath (strOf "/h/a.pdf"))) (by decide)

/-- C3: a supplied command-line argument that does not exist or lacks a
`.pdf` suffix makes `main` exit 1 at once, with no output written and the
interactive prompt never reached. -/
theorem C3_invalid_argument_fatal (w : World) (a : Str) (script : List Str)
    (hne : a ≠ [])
    (hbad : w.ex (parsePath a) = false ∨ suffixLower (parsePath a) ≠ pdfExt) :
    main w (some a) script = .done ⟨1, none, false⟩ :=
  main_arg_reject w a script hne hbad

/-- C5: when the extraction collaborator raises, the run exits 1 and the
output writer is never invoked — no `.md` file is written; via `main`,
the same holds for an otherwise valid argument. -/
theorem C5_extraction_error_no_output :
    (∀ (w : World) (prompted : Bool) (p : PyPath) (e : Str),
        w.extract p = .error e → runPipeline w prompted p = ⟨1, none, prompted⟩)
    ∧ (∀ (w : World) (a : Str) (script : List Str) (e : Str), a ≠ [] →
        w.ex (parsePath a) = true → suffixLower (parsePath a) = pdfExt →
        w.extract (parsePath a) = .error e →
        main w (some a) script = .done ⟨1, none, false⟩) := by
  have h1 : ∀ (w : World) (prompted : Bool) (p : PyPath) (e : Str),
      w.extract p = .error e → runPipeline w prompted p = ⟨1, none, prompted⟩ := by
    intro w prompted p e h
    simp [runPipeline, extract_pdf_to_markdown, h]
  refine ⟨h1, ?_⟩
  intro w a script e hne hex hsuf hext
  rw [main_arg_accept w a script hne hex hsuf, h1 w false _ e hext]

/-- C8: an unreadable directory is skipped — nothing below it is yielded —
while traversal continues with the rest of the tree, and the candidate
collection is exactly as if the unreadable subtree were empty (partial
results, no failure). -/
theorem C8_permission_errors_skipped (root pref : PyPath) (rn n : Str)
    (ts1 ts2 cs : List FSTree) :
    walkChildren pref (ts1 ++ FSTree.dir n false cs :: ts2)
      = walkChildren pref ts1 ++ walkEntry pref (FSTree.dir n false [])
          ++ walkChildren pref ts2
    ∧ find_pdf_files root (FSTree.dir rn true (ts1 ++ FSTree.dir n false cs :: ts2))
      = find_pdf_files root (FSTree.dir rn true (ts1 ++ FSTree.dir n false [] :: ts2)) := by
  have hstep : ∀ cs' : List FSTree,
      walkChildren pref (ts1 ++ FSTree.dir n false cs' :: ts2)
        = walkChildren pref ts1 ++ walkEntry pref (FSTree.dir n false cs')
            ++ walkChildren pref ts2 := by
    intro cs'
    rw [walkChildren_append]
    simp [walkChildren, List.append_assoc]
  have hstep2 : ∀ cs' : List FSTree,
      walkChildren root (ts1 ++ FSTree.dir n false cs' :: ts2)
        = walkChildren root ts1 ++ walkEntry root (FSTree.dir n false cs')
            ++ walkChildren root ts2 := by
    intro cs'
    rw [walkChildren_append]
    simp [walkChildren, List.append_assoc]
  constructor
  · rw [hstep cs, walkEntry_unreadable]
  · have hr : ∀ ts : List FSTree,
        rglobPdf root (FSTree.dir rn true ts) = walkChildren root ts := fun _ => rfl
    simp only [find_pdf_files, hr]
    rw [hstep2 cs, hstep2 [], walkEntry_unreadable]

theorem get_manual_path_accept (ex : PyPath → Bool) (home : Str)
    (pw : Str → Option Str) (s : Str) (rest : List Str)
    (hex : ex (parsePath (sanitizePath home pw (trimL s))) = true)
    (hsuf : suffixLower (parsePath (sanitizePath home pw (trimL s))) = pdfExt) :
    get_manual_path ex home pw (s :: rest)
      = (.done (some (parsePath (sanitizePath home pw (trimL s)))), rest) := by
  cases rest with
  | nil => rw [get_manual_path.eq_2]; simp [hex, hsuf]
  | cons r rest2 => rw [get_manual_path.eq_3]; simp [hex, hsuf]

theorem get_manual_path_sound (ex : PyPath → Bool) (home : Str)
    (pw : Str → Option Str) :
    ∀ (n : Nat) (script : List Str), script.length ≤ n →
      ∀ (p : PyPath) (rest : List Str),
        get_manual_path ex home pw script = (.done (some p), rest) →
        ex p = true ∧ suffixLower p = pdfExt := by
  intro n
  induction n with
  | zero =>
    intro script hlen p rest h
    have hs : script = [] := List.eq_nil_of_length_eq_zero (Nat.le_zero.mp hlen)
    subst hs
    simp [get_manual_path] at h
  | succ n ih =>
    intro script hlen p rest h
    match script with
    | [] => simp [get_manual_path] at h
    | [s] =>
      rw [get_manual_path.eq_2] at h
      by_cases hex : ex (parsePath (sanitizePath home pw (trimL s)))
      · rw [if_neg (by simp [hex])] at h
        by_cases hsuf : suffixLower (parsePath (sanitizePath home pw (trimL s))) = pdfExt
        · rw [if_neg (by simp [hsuf])] at h
          simp only [Prod.mk.injEq, Res.done.injEq, Option.some.injEq] at h
          rw [← h.1]
          exact ⟨hex, hsuf⟩
        · rw [if_pos (by simp [hsuf])] at h
          simp [get_manual_path] at h
      · rw [if_pos (by simp [hex])] at h
        simp at h
    | s :: r :: rest2 =>
      rw [get_manual_path.eq_3] at h
      by_cases hex : ex (parsePath (sanitizePath home pw (trimL s)))
      · rw [if_neg (by simp [hex])] at h
        by_cases hsuf : suffixLower (parsePath (sanitizePath home pw (trimL s))) = pdfExt
        · rw [if_neg (by simp [hsuf])] at h
          simp only [Prod.mk.injEq, Res.done.injEq, Option.some.injEq] at h
          rw [← h.1]
          exact ⟨hex, hsuf⟩
        · rw [if_pos (by simp [hsuf])] at h
          refine ih (r :: rest2) ?_ p rest h
          simp at hlen ⊢
          omega
      · rw [if_pos (by simp [hex])] at h
        by_cases hy : lowerL (trimL r) == [Char.ofNat 121]
        · rw [if_pos hy] at h
          refine ih rest2 ?_ p rest h
          simp at hlen
          omega
        · rw [if_neg hy] at h
          simp at h

/-- C2: both resolver routes accept exactly the existing paths with a
case-insensitive `.pdf` suffix — manual entry only ever returns such a
path, immediately returns a valid entered path, and a command-line
argument is passed on when valid and fatally rejected otherwise. -/
theorem C2_path_resolver_accepts_exactly_valid :
    (∀ (ex : PyPath → Bool) (home : Str) (pw : Str → Option Str)
        (script rest : List Str) (p : PyPath),
        get_manual_path ex home pw script = (.done (some p), rest) →
        ex p = true ∧ suffixLower p = pdfExt)
    ∧ (∀ (ex : PyPath → Bool) (home : Str) (pw : Str → Option Str)
        (s : Str) (rest : List Str),
        ex (parsePath (sanitizePath home pw (trimL s))) = true →
        suffixLower (parsePath (sanitizePath home pw (trimL s))) = pdfExt →
        get_manual_path ex home pw (s :: rest)
          = (.done (some (parsePath (sanitizePath home pw (trimL s)))), rest))
    ∧ (∀ (w : World) (a : Str) (script : List Str), a ≠ [] →
        w.ex (parsePath a) = true → suffixLower (parsePath a) = pdfExt →
        main w (some a) script = .done (runPipeline w false (parsePath a)))
    ∧ (∀ (w : World) (a : Str) (script : List Str), a ≠ [] →
        (w.ex (parsePath a) = false ∨ suffixLower (parsePath a) ≠ pdfExt) →
        main w (some a) script = .done ⟨1, none, false⟩) := by
  refine ⟨?_, ?_, ?_, ?_⟩
  · intro ex home pw script rest p h
    exact get_manual_path_sound ex home pw script.length script le_rfl p rest h
  · intro ex home pw s rest hex hsuf
    exact get_manual_path_accept ex home pw s rest hex hsuf
  · intro w a script hne hex hsuf
    exact main_arg_accept w a script hne hex hsuf
  · intro w a script hne hbad
    exact main_arg_reject w a script hne hbad

/-- C10: every candidate produced by the search is a regular file (its
traversal entry carries `is_file = true`), every yielded name matches the
case-sensitive `*.pdf` glob, and consequently an uppercase `report.PDF` is
never discovered by search even though the resolver's suffix check accepts
that very path when supplied directly. -/
theorem C10_glob_is_case_sensitive :
    (∀ (root : PyPath) (t : FSTree) (p : PyPath),
        p ∈ find_pdf_files root t → (p, true) ∈ rglobPdf root t)
    ∧ (∀ (root : PyPath) (t : FSTree) (p : PyPath),
        p ∈ find_pdf_files root t → pdfMatch (pathName p) = true)
    ∧ find_pdf_files (parsePath (strOf "/home/u"))
        (FSTree.dir (strOf "u") true [FSTree.file (strOf "report.PDF")]) = []
    ∧ suffixLower (parsePath (strOf "/home/u/report.PDF")) = pdfExt := by
  have h1 : ∀ (root : PyPath) (t : FSTree) (p : PyPath),
      p ∈ find_pdf_files root t → (p, true) ∈ rglobPdf root t := by
    intro root t p h
    rcases collectLoop_mem _ _ _ h with h1 | h1
    · simp at h1
    · exact h1
  refine ⟨h1, ?_, by decide, by decide⟩
  intro root t p h
  exact rglobPdf_suffix root t (p, true) (h1 root t p h)

/-- C10 witness: a lowercase `a.pdf` discovered by the search is backed by
an `is_file` traversal entry. -/
theorem C10_glob_is_case_sensitive_witness :
    (parsePath (strOf "/r/a.pdf"), true) ∈ rglobPdf (parsePath (strOf "/r"))
      (FSTree.dir (strOf "r") true [FSTree.file (strOf "a.pdf")]) :=
  C10_glob_is_case_sensitive.1 (parsePath (strOf "/r"))
    (FSTree.dir (strOf "r") true [FSTree.file (strOf "a.pdf")])
    (parsePath (strOf "/r/a.pdf")) (by decide)

/-- C6: a cancelled interactive resolution makes `main` exit 0 with no
output; entering `q` at a non-empty picklist cancels, and declining the
retry question at manual entry cancels. -/
theorem C6_cancel_exits_cleanly :
    (∀ (w : World) (script rest : List Str),
        get_pdf_path w script = (.done none, rest) →
        main w none script = .done ⟨0, none, true⟩)
    ∧ (∀ (files : List PyPath) (s : Str) (rest : List Str),
        files ≠ [] → lowerL (trimL s) = [Char.ofNat 113] →
        select_from_list files (s :: rest) = (.done none, rest))
    ∧ (∀ (ex : PyPath → Bool) (home : Str) (pw : Str → Option Str)
        (s r : Str) (rest : List Str),
        ex (parsePath (sanitizePath home pw (trimL s))) = false →
        lowerL (trimL r) ≠ [Char.ofNat 121] →
        get_manual_path ex home pw (s :: r :: rest) = (.done none, rest)) := by
  refine ⟨?_, ?_, ?_⟩
  · intro w script rest h
    simp only [main, h]
  · intro files s rest hne hq
    have he : files.isEmpty = false := by
      cases files with
      | nil => exact absurd rfl hne
      | cons f fs => rfl
    simp [select_from_list, selectLoop, he, hq]
  · intro ex home pw s r rest hex hny
    have hny' : (lowerL (trimL r) == [Char.ofNat 121]) = false :=
      beq_eq_false_iff_ne.mpr hny
    simp [get_manual_path, hex, hny']

/-- C2 witness: the existing `/home/u/doc.pdf`, entered as `~/doc.pdf`, is
accepted and returned by manual entry. -/
theorem C2_path_resolver_accepts_exactly_valid_witness :
    Wtest.ex (parsePath (sanitizePath Wtest.home Wtest.pw (trimL (strOf "~/doc.pdf")))) = true
    ∧ suffixLower (parsePath (sanitizePath Wtest.home Wtest.pw (trimL (strOf "~/doc.pdf")))) = pdfExt
    ∧ get_manual_path Wtest.ex Wtest.home Wtest.pw [strOf "~/doc.pdf"]
        = (.done (some (parsePath (sanitizePath Wtest.home Wtest.pw (trimL (strOf "~/doc.pdf"))))), []) :=
  ⟨by decide, by decide,
    C2_path_resolver_accepts_exactly_valid.2.1 Wtest.ex Wtest.home Wtest.pw
      (strOf "~/doc.pdf") [] (by decide) (by decide)⟩

/-- C3 witness: the argument `missing.pdf` does not exist, so the run exits
1 without reaching any prompt. -/
theorem C3_invalid_argument_fatal_witness :
    main Wtest (some (strOf "missing.pdf")) [] = .done ⟨1, none, false⟩ :=
  C3_invalid_argument_fatal Wtest (strOf "missing.pdf") [] (by decide)
    (Or.inl (by decide))

/-- C5 witness: a valid argument whose extraction raises ends with exit 1
and no output. -/
theorem C5_extraction_error_no_output_witness :
    main Wtest (some (strOf "/home/u/doc.pdf")) [] = .done ⟨1, none, false⟩ :=
  C5_extraction_error_no_output.2 Wtest (strOf "/home/u/doc.pdf") []
    (strOf "cannot open document") (by decide) (by decide) (by decide) rfl

/-- C6 witness: choosing search-from-home then quitting the picklist ends
the run with exit 0 and no output. -/
theorem C6_cancel_exits_cleanly_witness :
    main
      { ex := fun _ => false
        extract := fun _ => Except.error (strOf "boom")
        saveOk := fun _ => true
        home := strOf "/home/u"
        pw := fun _ => none
        homeTree := FSTree.dir (strOf "u") true [FSTree.file (strOf "doc.pdf")]
        treeAt := fun _ => FSTree.dir [] true [] }
      none [strOf "2", strOf "q"] = .done ⟨0, none, true⟩ :=
  C6_cancel_exits_cleanly.1
    { ex := fun _ => false
      extract := fun _ => Except.error (strOf "boom")
      saveOk := fun _ => true
      home := strOf "/home/u"
      pw := fun _ => none
      homeTree := FSTree.dir (strOf "u") true [FSTree.file (strOf "doc.pdf")]
      treeAt := fun _ => FSTree.dir [] true [] }
    [strOf "2", strOf "q"] [] (by decide)

/-- C4: manual-entry sanitization removes exactly one layer of matching
surrounding quotes (double or single, and not a second layer), then a
leading `file://`, then expands a leading `~` to the home directory, in
that order; the path checked for existence and suffix is exactly the
sanitized one. -/
theorem C4_manual_entry_sanitization (home : Str) (pw : Str → Option Str) :
    (∀ t : Str, stripQuotes ([dqC] ++ t ++ [dqC]) = t)
    ∧ (∀ t : Str, stripQuotes ([sqC] ++ t ++ [sqC]) = t)
    ∧ (∀ t : Str, stripQuotes ([dqC, dqC] ++ t ++ [dqC, dqC]) = [dqC] ++ t ++ [dqC])
    ∧ (∀ t : Str, stripFileScheme (fileScheme ++ t) = t)
    ∧ (∀ t : Str, expanduser home pw ([tildeC, slashC] ++ t)
        = rstripSlash home ++ [slashC] ++ t)
    ∧ (∀ s : Str, sanitizePath home pw s
        = expanduser home pw (stripFileScheme (stripQuotes s)))
    ∧ (∀ (ex : PyPath → Bool) (s : Str) (rest : List Str),
        ex (parsePath (sanitizePath home pw (trimL s))) = true →
        suffixLower (parsePath (sanitizePath home pw (trimL s))) = pdfExt →
        get_manual_path ex home pw (s :: rest)
          = (.done (some (parsePath (sanitizePath home pw (trimL s)))), rest)) := by
  refine ⟨?_, ?_, ?_, ?_, ?_, ?_, ?_⟩
  · intro t
    exact stripQuotes_layer dqC (Or.inl rfl) t
  · intro t
    exact stripQuotes_layer sqC (Or.inr rfl) t
  · intro t
    have h := stripQuotes_layer dqC (Or.inl rfl) ([dqC] ++ t ++ [dqC])
    calc stripQuotes ([dqC, dqC] ++ t ++ [dqC, dqC])
        = stripQuotes ([dqC] ++ ([dqC] ++ t ++ [dqC]) ++ [dqC]) := by
          simp [List.append_assoc]
      _ = [dqC] ++ t ++ [dqC] := h
  · intro t
    have hp : fileScheme.isPrefixOf (fileScheme ++ t) = true :=
      List.isPrefixOf_iff_prefix.mpr (List.prefix_append _ _)
    have h7 : fileScheme.length = 7 := by decide
    simp only [stripFileScheme, hp, if_true]
    rw [← h7, List.drop_left]
  · intro t
    exact expanduser_tilde_slash home pw t
  · intro s
    rfl
  · intro ex s rest hex hsuf
    exact get_manual_path_accept ex home pw s rest hex hsuf

/-- C4 witness: an input carrying quotes, a `file://` prefix and a `~` is
sanitized through all three stages and then accepted. -/
theorem C4_manual_entry_sanitization_witness :
    Wtest.ex (parsePath (sanitizePath Wtest.home Wtest.pw
        (trimL (strOf "\"file://~/doc.pdf\"")))) = true
    ∧ suffixLower (parsePath (sanitizePath Wtest.home Wtest.pw
        (trimL (strOf "\"file://~/doc.pdf\"")))) = pdfExt
    ∧ get_manual_path Wtest.ex Wtest.home Wtest.pw [strOf "\"file://~/doc.pdf\""]
        = (.done (some (parsePath (sanitizePath Wtest.home Wtest.pw
            (trimL (strOf "\"file://~/doc.pdf\""))))), []) :=
  ⟨by decide, by decide,
    (C4_manual_entry_sanitization Wtest.home Wtest.pw).2.2.2.2.2.2 Wtest.ex
      (strOf "\"file://~/doc.pdf\"") [] (by decide) (by decide)⟩

/-- C7: for any path whose suffix is `.pdf` case-insensitively, the output
path replaces exactly that extension with `.md`, in the same directory:
the name splits as a stem followed by the suffix, and `with_suffix`
produces the unchanged directory parts with `stem ++ ".md"` as name. -/
theorem C7_output_replaces_extension (p : PyPath) (h : suffixLower p = pdfExt) :
    ∃ stem : Str, pathName p = stem ++ pathSuffix p ∧
      withSuffix p mdExt = some ⟨p.absolute, p.parts.dropLast ++ [stem ++ mdExt]⟩ := by
  have hne : pathSuffix p ≠ [] := by
    intro h0
    rw [suffixLower, h0] at h
    exact absurd h (by decide)
  have hparts : p.parts ≠ [] := by
    intro h0
    apply hne
    simp [pathSuffix, pathName, h0, nameSuffix, lastDotIdx]
  obtain ⟨ys, y, hys⟩ : ∃ ys y, p.parts = ys ++ [y] := by
    rcases List.eq_nil_or_concat p.parts with h0 | ⟨L, b, h0⟩
    · exact absurd h0 hparts
    · exact ⟨L, b, by simpa [List.concat_eq_append] using h0⟩
  have hname : pathName p = y := by rw [pathName, hys, List.getLastD_concat]
  have hsfx : pathSuffix p = nameSuffix y := by rw [pathSuffix, hname]
  have hexist : ∃ i, (0 < i ∧ i + 1 < y.length) ∧ pathSuffix p = y.drop i := by
    cases hidx : lastDotIdx y with
    | none =>
      exfalso
      exact hne (by rw [hsfx, nameSuffix_eq_none y hidx])
    | some i =>
      rw [hsfx, nameSuffix_eq_some y i hidx] at hne ⊢
      by_cases hcond : (decide (0 < i) && decide (i + 1 < List.length y)) = true
      · rw [if_pos hcond]
        exact ⟨i, by simpa using hcond, rfl⟩
      · rw [if_neg hcond] at hne
        exact absurd rfl hne
  obtain ⟨i, ⟨hi0, hilen⟩, hdrop⟩ := hexist
  refine ⟨y.take i, ?_, ?_⟩
  · rw [hname, hdrop]
    exact (List.take_append_drop i y).symm
  · have hiemp : (pathSuffix p).isEmpty = false := by
      rw [List.isEmpty_eq_false]
      exact hne
    have hlold : y.length - (pathSuffix p).length = i := by
      rw [hdrop, List.length_drop]
      omega
    have hlast : p.parts.getLast? = some y := by rw [hys, List.getLast?_concat]
    simp only [withSuffix, hlast]
    rw [if_neg (by decide), if_neg (by decide)]
    simp only [hiemp, Bool.false_eq_true, if_false, hlold]

/-- C7 witness: `/docs/report.PDF` maps to `/docs/report.md`. -/
theorem C7_output_replaces_extension_witness :
    suffixLower (parsePath (strOf "/docs/report.PDF")) = pdfExt
    ∧ (∃ stem : Str,
        pathName (parsePath (strOf "/docs/report.PDF"))
          = stem ++ pathSuffix (parsePath (strOf "/docs/report.PDF")) ∧
        withSuffix (parsePath (strOf "/docs/report.PDF")) mdExt
          = some ⟨(parsePath (strOf "/docs/report.PDF")).absolute,
              (parsePath (strOf "/docs/report.PDF")).parts.dropLast ++ [stem ++ mdExt]⟩)
    ∧ withSuffix (parsePath (strOf "/docs/report.PDF")) mdExt
        = some ⟨true, [strOf "docs", strOf "report.md"]⟩ :=
  ⟨by decide,
    C7_output_replaces_extension (parsePath (strOf "/docs/report.PDF")) (by decide),
    by decide⟩

/-- C9: picklist entries are numbered from 1; `q` cancels with no
selection; a number `k` with `1 ≤ k ≤ n` returns the `k`-th candidate;
non-numeric input reprompts with the number-or-quit message; an
out-of-range number reprompts with the range message — neither fails. -/
theorem C9_picklist_selection (home : PyPath) :
    (∀ (files : List PyPath) (i : Nat),
        (numberLines home 1 files)[i]?
          = (files[i]?).map (fun f => fmt2 (1 + i) ++ strOf ". " ++ displayPath home f))
    ∧ (∀ (files : List PyPath) (s : Str) (rest : List Str),
        lowerL (trimL s) = [Char.ofNat 113] →
        selectLoop files (s :: rest) = (.done none, rest, []))
    ∧ (∀ (files : List PyPath) (s : Str) (rest : List Str) (k : Nat)
        (h1 : 1 ≤ k) (h2 : k ≤ files.length),
        lowerL (trimL s) ≠ [Char.ofNat 113] →
        parsePyInt (trimL s) = some (k : Int) →
        selectLoop files (s :: rest)
          = (.done (some (files.get ⟨k - 1, by omega⟩)), rest, []))
    ∧ (∀ (files : List PyPath) (s : Str) (rest : List Str),
        lowerL (trimL s) ≠ [Char.ofNat 113] →
        parsePyInt (trimL s) = none →
        selectLoop files (s :: rest)
          = ((selectLoop files rest).1, (selectLoop files rest).2.1,
             numericMsg :: (selectLoop files rest).2.2))
    ∧ (∀ (files : List PyPath) (s : Str) (rest : List Str) (v : Int),
        lowerL (trimL s) ≠ [Char.ofNat 113] →
        parsePyInt (trimL s) = some v →
        (v < 1 ∨ (files.length : Int) < v) →
        selectLoop files (s :: rest)
          = ((selectLoop files rest).1, (selectLoop files rest).2.1,
             rangeMsg files.length :: (selectLoop files rest).2.2)) := by
  refine ⟨?_, ?_, ?_, ?_, ?_⟩
  · intro files i
    exact numberLines_getElem home files 1 i
  · intro files s rest hq
    exact selectLoop_quit files s rest hq
  · intro files s rest k h1 h2 hq hp
    exact selectLoop_inrange files s rest k h1 h2 hq hp
  · intro files s rest hq hp
    exact selectLoop_nonnum files s rest hq hp
  · intro files s rest v hq hp hr
    exact selectLoop_outrange files s rest v hq hp hr

/-- C9 witness: entering `2` over three candidates selects the second. -/
theorem C9_picklist_selection_witness :
    selectLoop [parsePath (strOf "/a.pdf"), parsePath (strOf "/b.pdf"),
        parsePath (strOf "/c.pdf")] [strOf "2", strOf "x"]
      = (.done (some ([parsePath (strOf "/a.pdf"), parsePath (strOf "/b.pdf"),
          parsePath (strOf "/c.pdf")].get ⟨2 - 1, by decide⟩)), [strOf "x"], []) :=
  (C9_picklist_selection (parsePath (strOf "/h"))).2.2.1
    [parsePath (strOf "/a.pdf"), parsePath (strOf "/b.pdf"), parsePath (strOf "/c.pdf")]
    (strOf "2") [strOf "x"] 2 (by decide) (by decide) (by decide) (by decide)

end PdfMd
